import Mathlib

/-!
Verification of the snapshot-diff reconciliation engine of the
calico-bgp-daemon Kubernetes client (`k8s.go`).

The Go code is shallowly embedded: Go maps (`map[string]string`) become
association lists with unique keys, Go's in-place mutation becomes explicit
state passing, fallible calls return `Except`/`Option`, and the external
collaborators (the gobgp server, the libcalico datastore, JSON
serialization) are abstracted as explicit function parameters.
-/

/-! ## String primitives (embeddings of Go `strings` library calls) -/

/-- Embedding of the prefix test underlying Go `strings.HasPrefix`,
structurally recursive over character lists so it reduces in the kernel. -/
def listStartsWith : List Char → List Char → Bool
  | _, [] => true
  | [], _ :: _ => false
  | a :: as, b :: bs => a = b && listStartsWith as bs

/-- Embedding of Go `strings.HasPrefix s pre`. -/
def strHasPref (s pre : String) : Bool := listStartsWith s.toList pre.toList

/-- Helper for `goSplit`: walks the character list accumulating the current
segment (in reverse). -/
def goSplitAux (sep : Char) : List Char → List Char → List String
  | [], acc => [String.mk acc.reverse]
  | c :: cs, acc =>
    if c = sep then String.mk acc.reverse :: goSplitAux sep cs []
    else goSplitAux sep cs (c :: acc)

/-- Embedding of Go `strings.Split s sep` for a single-character separator
(the code only ever splits on "/"). Empty segments are kept, as in Go. -/
def goSplit (s : String) (sep : Char) : List String := goSplitAux sep s.toList []

/-! ## Snapshots: Go `map[string]string` as association lists -/

/-- A configuration snapshot: the embedding of Go `map[string]string`.
Keys are unique (Go map invariant); theorems that need this carry a
`Nodup` hypothesis on `Snapshot.keysOf`. -/
abbrev Snapshot := List (String × String)

/-- Key set of a snapshot. -/
def keysOf (m : Snapshot) : List String := m.map Prod.fst

/-- Map lookup: embedding of the Go two-result read `v, ok := m[k]`. -/
def mapGetOpt : Snapshot → String → Option String
  | [], _ => none
  | kv :: rest, k => if kv.1 = k then some kv.2 else mapGetOpt rest k

/-- Map read with Go's zero-value default: embedding of `m[k]`, which
yields `""` when the key is absent. -/
def mapGet (m : Snapshot) (k : String) : String := (mapGetOpt m k).getD ""

/-- Map write: embedding of the Go assignment `m[k] = v` (overwrites the
existing entry for `k`, otherwise appends). -/
def mapInsert : Snapshot → String → String → Snapshot
  | [], k, v => [(k, v)]
  | kv :: rest, k, v => if kv.1 = k then (k, v) :: rest else kv :: mapInsert rest k v

/-- Value-wise subset test between two snapshots, used to embed
`reflect.DeepEqual` on maps (one direction). -/
def mapSubEq (a b : Snapshot) : Bool :=
  a.all (fun kv => decide (mapGetOpt b kv.1 = some kv.2))

/-- Embedding of `reflect.DeepEqual` on two Go string maps: equal key sets
with equal values. -/
def mapEqual (a b : Snapshot) : Bool := mapSubEq a b && mapSubEq b a

/-! ## Key-space constants

The constants below are declared in the repository outside `k8s.go`. -/

/-- Modelled from the spec: the global BGP configuration key prefix
(constant `GlobalBGP`, declared outside `k8s.go`). -/
def GlobalBGP : String := "/calico/bgp/v1/global"

/-- Modelled from the spec: the per-node configuration key prefix
(constant `AllNodes`, declared outside `k8s.go`). -/
def AllNodes : String := "/calico/bgp/v1/host"

/-- Modelled from the spec: the global AS-number key (constant
`GlobalASN`, declared outside `k8s.go`). -/
def GlobalASN : String := "/calico/bgp/v1/global/as_num"

/-- Modelled from the spec: the global logging key (constant
`GlobalLogging`, declared outside `k8s.go`). -/
def GlobalLogging : String := "/calico/bgp/v1/global/loglevel"

/-- Modelled from the spec: the global node-to-node mesh key (constant
`GlobalNodeMesh`, declared outside `k8s.go`). -/
def GlobalNodeMesh : String := "/calico/bgp/v1/global/node_mesh"

/-- The serialized mesh-enabled value compared against in
`getNeighborConfigs` (k8s.go line 207). -/
def meshEnabledStr : String := "\x7b\"enabled\":true\x7d"

/-- Action constant `Act_add` (k8s.go line 48). -/
def Act_add : String := "add"

/-- Action constant `Act_upd` (k8s.go line 49). -/
def Act_upd : String := "upd"

/-- Action constant `Act_del` (k8s.go line 50). -/
def Act_del : String := "del"

/-- Action constant `Act_same` (k8s.go line 51). -/
def Act_same : String := "same"

/-! ## Snapshot Diff Engine: `CompareMap` (k8s.go lines 68-92) -/

/-- The four action buckets produced by `CompareMap` (k8s.go lines 68-73). -/
structure ActionList where
  Add : List String
  Upd : List String
  Del : List String
  Same : List String
deriving DecidableEq, Repr

/-- The first loop of `CompareMap` (k8s.go lines 77-85): classify every key
of `lasts` as Del (absent from `currs`), Upd (present with different
value) or Same (present with equal value). Returns `(Del, Upd, Same)`. -/
def classifyLasts (currs : Snapshot) : Snapshot → List String × List String × List String
  | [] => ([], [], [])
  | (k, last) :: rest =>
    match mapGetOpt currs k with
    | none =>
      (k :: (classifyLasts currs rest).1, (classifyLasts currs rest).2.1,
        (classifyLasts currs rest).2.2)
    | some cur =>
      if last ≠ cur then
        ((classifyLasts currs rest).1, k :: (classifyLasts currs rest).2.1,
          (classifyLasts currs rest).2.2)
      else
        ((classifyLasts currs rest).1, (classifyLasts currs rest).2.1,
          k :: (classifyLasts currs rest).2.2)

/-- The second loop of `CompareMap` (k8s.go lines 86-90): every key of
`currs` absent from `lasts` is Add. -/
def addedKeys (lasts : Snapshot) : Snapshot → List String
  | [] => []
  | (k, _) :: rest =>
    if (mapGetOpt lasts k).isNone then k :: addedKeys lasts rest
    else addedKeys lasts rest

/-- Embedding of `CompareMap` (k8s.go lines 75-92): the first loop yields
the Del/Upd/Same buckets, the second yields Add. -/
def CompareMap (lasts currs : Snapshot) : ActionList :=
  { Add := addedKeys lasts currs, Upd := (classifyLasts currs lasts).2.1,
    Del := (classifyLasts currs lasts).1, Same := (classifyLasts currs lasts).2.2 }

/-! ## Neighbor sessions and the abstracted server collaborators -/

/-- Embedding of the fields of `svbgpconfig.Neighbor` that `k8s.go`
populates: `NeighborAddress`, `PeerAs` (a uint32, kept as the reduced
value modulo 2^32) and `Description`. -/
structure Neighbor where
  address : String
  peerAs : Nat
  description : String
deriving DecidableEq, Repr

/-- A call issued to the gobgp server: `AddNeighbor` or `DeleteNeighbor`. -/
inductive BGPOp where
  | add (n : Neighbor)
  | del (n : Neighbor)
deriving DecidableEq, Repr

/-- Abstraction of the external collaborators used by `k8s.go`: the
`Server` methods, libcalico's `numorstring.ASNumberFromString`, and the
gobgp server's neighbor calls (which return `some errMsg` on failure,
`none` on success). -/
structure ServerEnv where
  getNeighborConfigFromPeer : String → String → Except String Neighbor
  getPeerASN : String → Except String Nat
  getNodeASN : Except String Nat
  asNumberFromString : String → Except String Nat
  isMeshMode : Except String Bool
  getMeshNeighborConfigs : Except String (List Neighbor)
  getGlobalNeighborConfigs : Except String (List Neighbor)
  getNodeSpecificNeighborConfigs : Except String (List Neighbor)
  addNeighbor : Neighbor → Option String
  deleteNeighbor : Neighbor → Option String

/-- Outcome of handling one key: normal return with `nil` error, return
with a non-nil error, or `os.Exit(1)`. -/
inductive UpdOutcome where
  | ok
  | err (e : String)
  | exit
deriving DecidableEq, Repr

/-- Result of `updateBGPConfig` for one key: the gobgp server calls
attempted (in order) and the outcome. -/
structure UpdResult where
  ops : List BGPOp
  out : UpdOutcome
deriving DecidableEq, Repr

/-- Converts a gobgp call result (`some errMsg` / `none`) into an outcome. -/
def outcomeOf : Option String → UpdOutcome
  | none => .ok
  | some e => .err e

/-- Modelled from the spec: the sanitizing label transform (`underscore`,
declared outside `k8s.go`) — a deterministic, separator-safe rewrite of
the address, replacing '.' and ':' by '_'. -/
def underscore (s : String) : String :=
  String.mk (s.toList.map (fun c => if c = '.' ∨ c = ':' then '_' else c))

/-- Embedding of the `deleteNeighbor` closure (k8s.go lines 294-304): a
no-op for the empty address, otherwise a `DeleteNeighbor` call for a
neighbor carrying only the address. Returns the ops attempted and the
call's error result. -/
def deleteNeighborOp (env : ServerEnv) (address : String) : List BGPOp × Option String :=
  if address = "" then ([], none)
  else
    let n : Neighbor := ⟨address, 0, ""⟩
    ([.del n], env.deleteNeighbor n)

/-- Embedding of the `handleNonMeshNeighbor` closure (k8s.go lines
263-276). -/
def handleNonMeshNeighbor (env : ServerEnv) (action neighborType peer : String) : UpdResult :=
  match env.getNeighborConfigFromPeer peer neighborType with
  | .error e => ⟨[], .err e⟩
  | .ok n =>
    if action = Act_del then ⟨[.del n], outcomeOf (env.deleteNeighbor n)⟩
    else if action = Act_add ∨ action = Act_upd then ⟨[.add n], outcomeOf (env.addNeighbor n)⟩
    else ⟨[], .ok⟩

/-- Embedding of the `Act_add`/`Act_upd` arm of the `ip_addr_v4`/`ip_addr_v6`
case (k8s.go lines 313-335): for an update, first delete the neighbor keyed
by the baseline's old value; an empty new value short-circuits; otherwise
resolve the host's AS and add the new neighbor. -/
def ipAddrAddUpd (env : ServerEnv) (lastCfg : Snapshot) (action key value host : String) : UpdResult :=
  match (if action = Act_upd then deleteNeighborOp env (mapGet lastCfg key) else ([], none)) with
  | (dops, some e) => ⟨dops, .err e⟩
  | (dops, none) =>
    if value = "" then ⟨dops, .ok⟩
    else
      match env.getPeerASN host with
      | .error e => ⟨dops, .err e⟩
      | .ok asn =>
        let n : Neighbor := ⟨value, asn % 2 ^ 32, "Mesh_" ++ underscore value⟩
        ⟨dops ++ [.add n], outcomeOf (env.addNeighbor n)⟩

/-- Embedding of the `for _, version := range []string{"v4", "v6"}` loop of
the `as_num` case (k8s.go lines 350-371): look up the host's address for
the version (error if the key is absent), skip empty addresses, delete the
neighbor keyed by the address, then add a neighbor whose address is the
`as_num` key's value. -/
def asNumLoop (env : ServerEnv) (bgpconfig : Snapshot) (host value : String) (asn : Nat) :
    List String → UpdResult
  | [] => ⟨[], .ok⟩
  | version :: rest =>
    match mapGetOpt bgpconfig (AllNodes ++ "/" ++ host ++ "/ip_addr_" ++ version) with
    | none => ⟨[], .err "ip address data not found"⟩
    | some ip =>
      if ip = "" then asNumLoop env bgpconfig host value asn rest
      else
        match deleteNeighborOp env ip with
        | (dops, some e) => ⟨dops, .err e⟩
        | (dops, none) =>
          let n : Neighbor := ⟨value, asn % 2 ^ 32, "Mesh_" ++ underscore value⟩
          match env.addNeighbor n with
          | some e => ⟨dops ++ [.add n], .err e⟩
          | none =>
            ⟨dops ++ [.add n] ++ (asNumLoop env bgpconfig host value asn rest).ops,
              (asNumLoop env bgpconfig host value asn rest).out⟩

/-- Embedding of the `as_num` case (k8s.go lines 337-371): the AS comes
from parsing the value on update, otherwise from the node's own AS. -/
def asNumHandler (env : ServerEnv) (bgpconfig : Snapshot) (action value host : String) : UpdResult :=
  match (if action = Act_upd then env.asNumberFromString value else env.getNodeASN) with
  | .error e => ⟨[], .err e⟩
  | .ok asn => asNumLoop env bgpconfig host value asn ["v4", "v6"]

/-- Embedding of the `for _, n := range ns` loop of the `node_mesh` case
(k8s.go lines 387-396): add every mesh neighbor if mesh mode is on,
delete every one otherwise, stopping at the first failing call. -/
def meshLoop (env : ServerEnv) (mesh : Bool) : List Neighbor → UpdResult
  | [] => ⟨[], .ok⟩
  | n :: rest =>
    match (if mesh then (BGPOp.add n, env.addNeighbor n)
        else (BGPOp.del n, env.deleteNeighbor n)) with
    | (op, some msg) => ⟨[op], .err msg⟩
    | (op, none) => ⟨op :: (meshLoop env mesh rest).ops, (meshLoop env mesh rest).out⟩

/-- Embedding of the `node_mesh` case (k8s.go lines 378-396). -/
def meshHandler (env : ServerEnv) : UpdResult :=
  match env.isMeshMode with
  | .error e => ⟨[], .err e⟩
  | .ok mesh =>
    match env.getMeshNeighborConfigs with
    | .error e => ⟨[], .err e⟩
    | .ok ns => meshLoop env mesh ns

/-- Embedding of `updateBGPConfig` (k8s.go lines 261-399). The Go `switch`
with `strings.HasPrefix` cases becomes a nested conditional evaluated in
the same order; `bgpconfig` is the snapshot the caller passed (`cur` for
Add/Upd, the baseline for Del) and `lastCfg` is the global baseline
`lastBgpconfig` read inside the function. -/
def updateBGPConfig (env : ServerEnv) (node : String) (lastCfg : Snapshot)
    (action key : String) (bgpconfig : Snapshot) : UpdResult :=
  let value := mapGet bgpconfig key
  if strHasPref key (GlobalBGP ++ "/peer_") then
    handleNonMeshNeighbor env action "global" value
  else if strHasPref key (AllNodes ++ "/" ++ node ++ "/peer_") then
    handleNonMeshNeighbor env action "node" value
  else if strHasPref key (AllNodes ++ "/" ++ node) then
    ⟨[], .exit⟩
  else if strHasPref key AllNodes then
    let elems := goSplit key '/'
    if elems.length < 4 then ⟨[], .ok⟩
    else
      let host := elems.getD (elems.length - 2) ""
      let leaf := elems.getD (elems.length - 1) ""
      if leaf = "ip_addr_v4" ∨ leaf = "ip_addr_v6" then
        if action = Act_del then
          ⟨(deleteNeighborOp env value).1, outcomeOf (deleteNeighborOp env value).2⟩
        else if action = Act_add ∨ action = Act_upd then
          ipAddrAddUpd env lastCfg action key value host
        else ⟨[], .ok⟩
      else if leaf = "as_num" then
        asNumHandler env bgpconfig action value host
      else ⟨[], .ok⟩
  else if strHasPref key (GlobalASN) then
    ⟨[], .exit⟩
  else if strHasPref key (GlobalNodeMesh) then
    meshHandler env
  else ⟨[], .ok⟩

/-! ## BGP reconciliation cycle: `checkBGPConfig` (k8s.go lines 231-259) -/

/-- Result of running the apply loops of one cycle: the per-key actions
attempted as `(action, key)` pairs in order, the gobgp calls issued, and
the outcome of the first failing key (or `ok`). -/
structure RunResult where
  applied : List (String × String)
  ops : List BGPOp
  out : UpdOutcome
deriving DecidableEq, Repr

/-- The three `for` loops of `checkBGPConfig` (k8s.go lines 242-256),
flattened over a list of `(action, key, snapshot)` items: each key is
handed to `updateBGPConfig`; the first non-nil error returns immediately,
skipping the remaining items. -/
def runUpdates (env : ServerEnv) (node : String) (lastCfg : Snapshot) :
    List (String × String × Snapshot) → RunResult
  | [] => ⟨[], [], .ok⟩
  | (a, k, cfg) :: rest =>
    let r := updateBGPConfig env node lastCfg a k cfg
    match r.out with
    | .ok =>
      let rr := runUpdates env node lastCfg rest
      ⟨(a, k) :: rr.applied, r.ops ++ rr.ops, rr.out⟩
    | o => ⟨[(a, k)], r.ops, o⟩

/-- Result of one `checkBGPConfig` cycle: the value of `lastBgpconfig`
afterwards, the per-key actions attempted, the gobgp calls issued, and the
outcome. -/
structure CycleResult where
  baseline : Snapshot
  applied : List (String × String)
  ops : List BGPOp
  out : UpdOutcome
deriving DecidableEq, Repr

/-- The `(action, key, snapshot)` items a cycle processes, in the order of
the three loops of `checkBGPConfig`: Add and Upd read from `cur`, Del
reads from the baseline `last`. -/
def cycleItems (act : ActionList) (cur last : Snapshot) : List (String × String × Snapshot) :=
  act.Add.map (fun k => (Act_add, k, cur)) ++ act.Upd.map (fun k => (Act_upd, k, cur))
    ++ act.Del.map (fun k => (Act_del, k, last))

/-- Embedding of `checkBGPConfig` (k8s.go lines 231-259). A fetch error
returns nil with the baseline untouched; an unchanged snapshot returns
nil; otherwise the delta is applied and only a fully successful pass
assigns `lastBgpconfig = curBgpconfig`. -/
def checkBGPConfig (env : ServerEnv) (node : String) (fetch : Except String Snapshot)
    (last : Snapshot) : CycleResult :=
  match fetch with
  | .error _ => ⟨last, [], [], .ok⟩
  | .ok cur =>
    if mapEqual last cur then ⟨last, [], [], .ok⟩
    else
      let r := runUpdates env node last (cycleItems (CompareMap last cur) cur last)
      match r.out with
      | .ok => ⟨cur, r.applied, r.ops, .ok⟩
      | o => ⟨last, r.applied, r.ops, o⟩

/-! ## Pool Reconciliation Cache (k8s.go lines 537-628) -/

/-- Modelled from the spec: a parsed pool entry (`ipPool`, declared outside
`k8s.go`) — a non-empty CIDR as unique key plus opaque pool attributes;
structural equality. -/
structure ipPool where
  cidr : String
  attrs : String
deriving DecidableEq, Repr

/-- The pool cache's entry table `c.m`: Go `map[string]*ipPool` keyed by
CIDR, as an association list. -/
abbrev PoolMap := List (String × ipPool)

/-- Lookup in the pool table: embedding of `c.m[p.CIDR]` (a missing key
yields Go's nil pointer, modelled as `none`). -/
def poolLookup : PoolMap → String → Option ipPool
  | [], _ => none
  | kv :: rest, c => if kv.1 = c then some kv.2 else poolLookup rest c

/-- Embedding of `delete(c.m, cidr)`. -/
def poolDelete : PoolMap → String → PoolMap
  | [], _ => []
  | kv :: rest, c => if kv.1 = c then poolDelete rest c else kv :: poolDelete rest c

/-- Embedding of the assignment `c.m[p.CIDR] = p`. -/
def poolInsert (m : PoolMap) (c : String) (p : ipPool) : PoolMap :=
  (c, p) :: poolDelete m c

/-- Modelled from the spec: `ipPool.equal` (declared outside `k8s.go`) —
structural equality of pool entries, false against a missing (nil)
entry. -/
def ipPool.equalOpt (p : ipPool) : Option ipPool → Bool
  | none => false
  | some q => decide (p = q)

/-- Result of one pool-cache `update` call: the table afterwards, the
handler invocations made (`fired`), and the returned error (if any). -/
structure PoolUpdResult where
  m : PoolMap
  fired : List ipPool
  err : Option String
deriving DecidableEq, Repr

/-- Embedding of `ipamCacheK8s.update` (k8s.go lines 564-592). JSON
unmarshalling of the serialized entry is abstracted as the `parse`
parameter; the registered change handler is `handler` (returning `some
errMsg` on failure). -/
def update (parse : String → Except String ipPool) (handler : Option (ipPool → Option String))
    (m : PoolMap) (ippool : String) (del : Bool) : PoolUpdResult :=
  if ippool = "" then ⟨m, [], none⟩
  else
    match parse ippool with
    | .error e => ⟨m, [], some e⟩
    | .ok p =>
      if p.cidr = "" then ⟨m, [], some ("empty cidr: " ++ ippool)⟩
      else
        let q := poolLookup m p.cidr
        if del then ⟨poolDelete m p.cidr, [], none⟩
        else if p.equalOpt q then ⟨m, [], none⟩
        else
          let m2 := poolInsert m p.cidr p
          match handler with
          | some h => ⟨m2, [p], h p⟩
          | none => ⟨m2, [], none⟩

/-- Result of running the pool apply loops: table, `(key, del)` actions
attempted in order, handler invocations, and the first error. -/
structure PoolRunResult where
  m : PoolMap
  applied : List (String × Bool)
  fired : List ipPool
  err : Option String
deriving DecidableEq, Repr

/-- The two `for` loops of `sync` (k8s.go lines 616-625), flattened over
`(key, serializedValue, del)` items: each item is handed to `update`
(via `updateWrap`); a non-nil error returns immediately. -/
def runPoolUpdates (parse : String → Except String ipPool)
    (handler : Option (ipPool → Option String)) (m : PoolMap) :
    List (String × String × Bool) → PoolRunResult
  | [] => ⟨m, [], [], none⟩
  | (k, s, d) :: rest =>
    let r := update parse handler m s d
    match r.err with
    | some e => ⟨r.m, [(k, d)], r.fired, some e⟩
    | none =>
      let rr := runPoolUpdates parse handler r.m rest
      ⟨rr.m, (k, d) :: rr.applied, r.fired ++ rr.fired, rr.err⟩

/-- Result of one `sync` cycle: the value of `lastIPPool` afterwards, the
table, the actions attempted, the handler invocations, and the returned
error. -/
structure SyncResult where
  baseline : Snapshot
  m : PoolMap
  applied : List (String × Bool)
  fired : List ipPool
  err : Option String
deriving DecidableEq, Repr

/-- The `(key, serializedValue, del)` items one `sync` cycle processes, in
loop order: `append(act.Add, act.Upd...)` read from `cur` with `del =
false`, then `act.Del` read from the baseline with `del = true`. -/
def syncItems (act : ActionList) (cur last : Snapshot) : List (String × String × Bool) :=
  (act.Add ++ act.Upd).map (fun k => (k, mapGet cur k, false))
    ++ act.Del.map (fun k => (k, mapGet last k, true))

/-- Embedding of `ipamCacheK8s.sync` (k8s.go lines 605-628). A fetch error
is returned with the baseline untouched; an unchanged snapshot returns
nil; otherwise the delta is applied and only a fully successful pass
assigns `lastIPPool = currIPPool`. Table mutations made before a failure
persist (the Go cache is mutated in place). -/
def sync (parse : String → Except String ipPool) (handler : Option (ipPool → Option String))
    (fetch : Except String Snapshot) (last : Snapshot) (m : PoolMap) : SyncResult :=
  match fetch with
  | .error e => ⟨last, m, [], [], some e⟩
  | .ok cur =>
    if mapEqual last cur then ⟨last, m, [], [], none⟩
    else
      let r := runPoolUpdates parse handler m (syncItems (CompareMap last cur) cur last)
      match r.err with
      | some e => ⟨last, r.m, r.applied, r.fired, some e⟩
      | none => ⟨cur, r.m, r.applied, r.fired, none⟩

/-! ## Snapshot construction: `getBGPConfig` (k8s.go lines 401-437) and
`getNeighborConfigs` (k8s.go lines 203-229) -/

/-- Embedding of `populateFromKVPairs` restricted to its effect on the
vars map: each KVPair that serializes successfully is written with
`vars[path] = value` (failures are logged and skipped, so the argument
list holds the successful writes). -/
def applyKvps (m : Snapshot) (kvps : List (String × String)) : Snapshot :=
  kvps.foldl (fun acc kv => mapInsert acc kv.1 kv.2) m

/-- Embedding of `getBGPConfig` (k8s.go lines 401-437) on the success
path: the three defaults are seeded first, then the global-config,
global-peer and per-node writes (abstracted as the etcdv2-format
key/value pairs produced by the datastore lists) are merged in order,
overwriting on key collision. -/
def getBGPConfig (globalCfg globalPeers nodeDetails : List (String × String)) : Snapshot :=
  let defaults :=
    mapInsert (mapInsert (mapInsert [] GlobalLogging "info") GlobalASN "64512")
      GlobalNodeMesh meshEnabledStr
  applyKvps (applyKvps (applyKvps defaults globalCfg) globalPeers) nodeDetails

/-- The body of `getNeighborConfigs` after the mesh lookup succeeded
(k8s.go lines 207-228): mesh neighbors when mesh is enabled, then global
peers, then node-specific peers. -/
def getNeighborConfigsRest (env : ServerEnv) (mesh : String) : Except String (List Neighbor) :=
  match (if mesh = meshEnabledStr then env.getMeshNeighborConfigs else .ok []) with
  | .error e => .error e
  | .ok ns1 =>
    match env.getGlobalNeighborConfigs with
    | .error e => .error e
    | .ok ns2 =>
      match env.getNodeSpecificNeighborConfigs with
      | .error e => .error e
      | .ok ns3 => .ok (ns1 ++ ns2 ++ ns3)

/-- Embedding of `getNeighborConfigs` (k8s.go lines 203-229): the mesh key
must be present or the call fails with "mesh data not found". -/
def getNeighborConfigs (env : ServerEnv) (bgpconfig : Snapshot) : Except String (List Neighbor) :=
  match mapGetOpt bgpconfig GlobalNodeMesh with
  | none => .error "mesh data not found"
  | some mesh => getNeighborConfigsRest env mesh

/-- A concrete environment used to instantiate witnesses: every
collaborator call succeeds with a default value. -/
def trivialEnv : ServerEnv where
  getNeighborConfigFromPeer := fun _ _ => .ok ⟨"192.0.2.1", 64512, "peer"⟩
  getPeerASN := fun _ => .ok 64512
  getNodeASN := .ok 64512
  asNumberFromString := fun _ => .ok 65001
  isMeshMode := .ok true
  getMeshNeighborConfigs := .ok []
  getGlobalNeighborConfigs := .ok []
  getNodeSpecificNeighborConfigs := .ok []
  addNeighbor := fun _ => none
  deleteNeighbor := fun _ => none

/-- A trivially succeeding concrete parse function for witnesses: the
serialized form "cidr,attrs". -/
def parsePool (s : String) : Except String ipPool :=
  match goSplit s ',' with
  | [c, a] => .ok ⟨c, a⟩
  | _ => .error "unmarshal error"

/-! ## Map lemmas -/

theorem keysOf_cons (kv : String × String) (m : Snapshot) :
    keysOf (kv :: m) = kv.1 :: keysOf m := rfl

theorem mem_keysOf {m : Snapshot} {k : String} : k ∈ keysOf m ↔ ∃ v, (k, v) ∈ m := by
  constructor
  · intro h
    rcases List.mem_map.mp h with ⟨⟨a, b⟩, hmem, heq⟩
    exact ⟨b, by simpa [← heq] using hmem⟩
  · rintro ⟨v, hv⟩
    exact List.mem_map.mpr ⟨(k, v), hv, rfl⟩

theorem mapGetOpt_eq_some_mem {m : Snapshot} {k v : String}
    (h : mapGetOpt m k = some v) : (k, v) ∈ m := by
  induction m with
  | nil => simp [mapGetOpt] at h
  | cons kv rest ih =>
    simp only [mapGetOpt] at h
    by_cases hk : kv.1 = k
    · rw [if_pos hk] at h
      obtain ⟨k1, v1⟩ := kv
      obtain rfl : k1 = k := hk
      obtain rfl : v1 = v := by simpa using h
      exact List.mem_cons_self _ _
    · rw [if_neg hk] at h
      exact List.mem_cons_of_mem _ (ih h)

theorem mapGetOpt_eq_none_iff {m : Snapshot} {k : String} :
    mapGetOpt m k = none ↔ k ∉ keysOf m := by
  induction m with
  | nil => simp [mapGetOpt, keysOf]
  | cons kv rest ih =>
    by_cases hk : kv.1 = k
    · simp [mapGetOpt, hk, keysOf_cons]
    · simp [mapGetOpt, hk, keysOf_cons, ih, Ne.symm hk]

theorem mapGetOpt_isSome_iff {m : Snapshot} {k : String} :
    (mapGetOpt m k).isSome ↔ k ∈ keysOf m := by
  cases ho : mapGetOpt m k with
  | none => simp [mapGetOpt_eq_none_iff.mp ho]
  | some v => simp [mem_keysOf.mpr ⟨v, mapGetOpt_eq_some_mem ho⟩]

theorem mem_mapGetOpt_of_nodup {m : Snapshot} {k v : String}
    (hm : (keysOf m).Nodup) (h : (k, v) ∈ m) : mapGetOpt m k = some v := by
  induction m with
  | nil => simp at h
  | cons kv rest ih =>
    rw [keysOf_cons, List.nodup_cons] at hm
    rcases List.mem_cons.mp h with h1 | h1
    · simp [mapGetOpt, ← h1]
    · have hk : kv.1 ≠ k := by
        intro he
        exact hm.1 (he ▸ mem_keysOf.mpr ⟨v, h1⟩)
      simp [mapGetOpt, hk, ih hm.2 h1]

theorem mem_classify_del {currs : Snapshot} {k : String} {lasts : Snapshot} :
    k ∈ (classifyLasts currs lasts).1 ↔ ∃ v, (k, v) ∈ lasts ∧ mapGetOpt currs k = none := by
  induction lasts with
  | nil => simp [classifyLasts]
  | cons kv rest ih =>
    obtain ⟨k', v'⟩ := kv
    simp only [classifyLasts]
    split
    · next hc =>
      constructor
      · intro h
        rcases List.mem_cons.mp h with rfl | h2
        · exact ⟨v', List.mem_cons_self _ _, hc⟩
        · obtain ⟨v, hv, hn⟩ := ih.mp h2
          exact ⟨v, List.mem_cons_of_mem _ hv, hn⟩
      · rintro ⟨v, hv, hn⟩
        rcases List.mem_cons.mp hv with heq | h2
        · exact List.mem_cons.mpr (Or.inl (congrArg Prod.fst heq))
        · exact List.mem_cons.mpr (Or.inr (ih.mpr ⟨v, h2, hn⟩))
    · next cur hc =>
      have tail : k ∈ (classifyLasts currs rest).1 ↔
          ∃ v, (k, v) ∈ (k', v') :: rest ∧ mapGetOpt currs k = none := by
        rw [ih]
        constructor
        · rintro ⟨v, hv, hn⟩
          exact ⟨v, List.mem_cons_of_mem _ hv, hn⟩
        · rintro ⟨v, hv, hn⟩
          rcases List.mem_cons.mp hv with heq | h2
          · have hkk : k = k' := congrArg Prod.fst heq
            rw [hkk, hc] at hn
            exact absurd hn (by simp)
          · exact ⟨v, h2, hn⟩
      split
      · exact tail
      · exact tail

theorem mem_classify_upd {currs : Snapshot} {k : String} {lasts : Snapshot} :
    k ∈ (classifyLasts currs lasts).2.1 ↔
      ∃ v w, (k, v) ∈ lasts ∧ mapGetOpt currs k = some w ∧ v ≠ w := by
  induction lasts with
  | nil => simp [classifyLasts]
  | cons kv rest ih =>
    obtain ⟨k', v'⟩ := kv
    simp only [classifyLasts]
    split
    · next hc =>
      rw [ih]
      constructor
      · rintro ⟨v, w, hv, hw, hne⟩
        exact ⟨v, w, List.mem_cons_of_mem _ hv, hw, hne⟩
      · rintro ⟨v, w, hv, hw, hne⟩
        rcases List.mem_cons.mp hv with heq | h2
        · have hkk : k = k' := congrArg Prod.fst heq
          rw [hkk, hc] at hw
          exact absurd hw (by simp)
        · exact ⟨v, w, h2, hw, hne⟩
    · next cur hc =>
      have tail : k ∈ (classifyLasts currs rest).2.1 ↔
          ∃ v w, (k, v) ∈ rest ∧ mapGetOpt currs k = some w ∧ v ≠ w := ih
      split
      · next hne =>
        constructor
        · intro h
          rcases List.mem_cons.mp h with rfl | h2
          · exact ⟨v', cur, List.mem_cons_self _ _, hc, hne⟩
          · obtain ⟨v, w, hv, hw, hvw⟩ := tail.mp h2
            exact ⟨v, w, List.mem_cons_of_mem _ hv, hw, hvw⟩
        · rintro ⟨v, w, hv, hw, hvw⟩
          rcases List.mem_cons.mp hv with heq | h2
          · exact List.mem_cons.mpr (Or.inl (congrArg Prod.fst heq))
          · exact List.mem_cons.mpr (Or.inr (tail.mpr ⟨v, w, h2, hw, hvw⟩))
      · next hne =>
        have hvc : v' = cur := not_not.mp hne
        rw [tail]
        constructor
        · rintro ⟨v, w, hv, hw, hvw⟩
          exact ⟨v, w, List.mem_cons_of_mem _ hv, hw, hvw⟩
        · rintro ⟨v, w, hv, hw, hvw⟩
          rcases List.mem_cons.mp hv with heq | h2
          · have hkk : k = k' := congrArg Prod.fst heq
            have hvv : v = v' := congrArg Prod.snd heq
            rw [hkk, hc] at hw
            have : w = cur := by simpa using hw.symm
            exact absurd (hvv.trans hvc |>.trans this.symm) hvw
          · exact ⟨v, w, h2, hw, hvw⟩

theorem mem_classify_same {currs : Snapshot} {k : String} {lasts : Snapshot} :
    k ∈ (classifyLasts currs lasts).2.2 ↔
      ∃ v, (k, v) ∈ lasts ∧ mapGetOpt currs k = some v := by
  induction lasts with
  | nil => simp [classifyLasts]
  | cons kv rest ih =>
    obtain ⟨k', v'⟩ := kv
    simp only [classifyLasts]
    split
    · next hc =>
      rw [ih]
      constructor
      · rintro ⟨v, hv, hw⟩
        exact ⟨v, List.mem_cons_of_mem _ hv, hw⟩
      · rintro ⟨v, hv, hw⟩
        rcases List.mem_cons.mp hv with heq | h2
        · have hkk : k = k' := congrArg Prod.fst heq
          rw [hkk, hc] at hw
          exact absurd hw (by simp)
        · exact ⟨v, h2, hw⟩
    · next cur hc =>
      split
      · next hne =>
        rw [ih]
        constructor
        · rintro ⟨v, hv, hw⟩
          exact ⟨v, List.mem_cons_of_mem _ hv, hw⟩
        · rintro ⟨v, hv, hw⟩
          rcases List.mem_cons.mp hv with heq | h2
          · have hkk : k = k' := congrArg Prod.fst heq
            have hvv : v = v' := congrArg Prod.snd heq
            rw [hkk, hc] at hw
            have hcv : cur = v := by simpa using hw
            exact absurd (hcv.trans hvv).symm hne
          · exact ⟨v, h2, hw⟩
      · next hne =>
        have hvc : v' = cur := not_not.mp hne
        constructor
        · intro h
          rcases List.mem_cons.mp h with rfl | h2
          · exact ⟨v', List.mem_cons_self _ _, by rw [hc, hvc]⟩
          · obtain ⟨v, hv, hw⟩ := ih.mp h2
            exact ⟨v, List.mem_cons_of_mem _ hv, hw⟩
        · rintro ⟨v, hv, hw⟩
          rcases List.mem_cons.mp hv with heq | h2
          · exact List.mem_cons.mpr (Or.inl (congrArg Prod.fst heq))
          · exact List.mem_cons.mpr (Or.inr (ih.mpr ⟨v, h2, hw⟩))

theorem mem_addedKeys {lasts : Snapshot} {k : String} {currs : Snapshot} :
    k ∈ addedKeys lasts currs ↔ ∃ v, (k, v) ∈ currs ∧ mapGetOpt lasts k = none := by
  induction currs with
  | nil => simp [addedKeys]
  | cons kv rest ih =>
    obtain ⟨k', v'⟩ := kv
    simp only [addedKeys]
    split
    · next hn =>
      constructor
      · intro h
        rcases List.mem_cons.mp h with rfl | h2
        · exact ⟨v', List.mem_cons_self _ _, Option.isNone_iff_eq_none.mp hn⟩
        · obtain ⟨v, hv, hw⟩ := ih.mp h2
          exact ⟨v, List.mem_cons_of_mem _ hv, hw⟩
      · rintro ⟨v, hv, hw⟩
        rcases List.mem_cons.mp hv with heq | h2
        · exact List.mem_cons.mpr (Or.inl (congrArg Prod.fst heq))
        · exact List.mem_cons.mpr (Or.inr (ih.mpr ⟨v, h2, hw⟩))
    · next hn =>
      rw [ih]
      constructor
      · rintro ⟨v, hv, hw⟩
        exact ⟨v, List.mem_cons_of_mem _ hv, hw⟩
      · rintro ⟨v, hv, hw⟩
        rcases List.mem_cons.mp hv with heq | h2
        · have hkk : k = k' := congrArg Prod.fst heq
          rw [hkk] at hw
          rw [hw] at hn
          exact absurd rfl hn
        · exact ⟨v, h2, hw⟩

theorem classifyLasts_self {A : Snapshot} :
    ∀ {l : Snapshot}, (∀ kv ∈ l, mapGetOpt A kv.1 = some kv.2) →
      classifyLasts A l = ([], [], keysOf l) := by
  intro l
  induction l with
  | nil => intro _; simp [classifyLasts, keysOf]
  | cons kv rest ih =>
    intro h
    obtain ⟨k', v'⟩ := kv
    have h1 : mapGetOpt A k' = some v' := h _ (List.mem_cons_self _ _)
    have h2 := ih (fun kv hm => h _ (List.mem_cons_of_mem _ hm))
    simp [classifyLasts, h1, h2, keysOf_cons]

theorem addedKeys_none {A : Snapshot} :
    ∀ {l : Snapshot}, (∀ kv ∈ l, (mapGetOpt A kv.1).isSome) → addedKeys A l = [] := by
  intro l
  induction l with
  | nil => intro _; simp [addedKeys]
  | cons kv rest ih =>
    intro h
    obtain ⟨k', v'⟩ := kv
    have h1 : (mapGetOpt A k').isSome := h _ (List.mem_cons_self _ _)
    have h2 := ih (fun kv hm => h _ (List.mem_cons_of_mem _ hm))
    cases ho : mapGetOpt A k' with
    | none => rw [ho] at h1; simp at h1
    | some v => simp [addedKeys, ho, h2]

/-- C1: `CompareMap` partitions the union of the key sets into the four
disjoint buckets — keys only in the old snapshot are Del, keys only in the
new one are Add, keys in both with equal values are Same, keys in both
with differing values are Upd — and `CompareMap A A` yields empty
Add/Upd/Del with Same equal to the keys of `A`. -/
theorem claim_C1 (A B : Snapshot) (hA : (keysOf A).Nodup) (hB : (keysOf B).Nodup)
    (k : String) :
    (k ∈ (CompareMap A B).Del ↔ k ∈ keysOf A ∧ k ∉ keysOf B) ∧
    (k ∈ (CompareMap A B).Add ↔ k ∈ keysOf B ∧ k ∉ keysOf A) ∧
    (k ∈ (CompareMap A B).Upd ↔
      ∃ v w, mapGetOpt A k = some v ∧ mapGetOpt B k = some w ∧ v ≠ w) ∧
    (k ∈ (CompareMap A B).Same ↔
      ∃ v, mapGetOpt A k = some v ∧ mapGetOpt B k = some v) ∧
    ((k ∈ keysOf A ∨ k ∈ keysOf B) ↔
      k ∈ (CompareMap A B).Add ∨ k ∈ (CompareMap A B).Upd ∨ k ∈ (CompareMap A B).Del ∨
        k ∈ (CompareMap A B).Same) ∧
    (¬(k ∈ (CompareMap A B).Add ∧ k ∈ (CompareMap A B).Upd)) ∧
    (¬(k ∈ (CompareMap A B).Add ∧ k ∈ (CompareMap A B).Del)) ∧
    (¬(k ∈ (CompareMap A B).Add ∧ k ∈ (CompareMap A B).Same)) ∧
    (¬(k ∈ (CompareMap A B).Upd ∧ k ∈ (CompareMap A B).Del)) ∧
    (¬(k ∈ (CompareMap A B).Upd ∧ k ∈ (CompareMap A B).Same)) ∧
    (¬(k ∈ (CompareMap A B).Del ∧ k ∈ (CompareMap A B).Same)) ∧
    CompareMap A A = ⟨[], [], [], keysOf A⟩ := by
  have hDel : k ∈ (CompareMap A B).Del ↔ k ∈ keysOf A ∧ k ∉ keysOf B := by
    rw [show (CompareMap A B).Del = (classifyLasts B A).1 from rfl, mem_classify_del]
    constructor
    · rintro ⟨v, hv, hn⟩
      exact ⟨mem_keysOf.mpr ⟨v, hv⟩, mapGetOpt_eq_none_iff.mp hn⟩
    · rintro ⟨hka, hkb⟩
      obtain ⟨v, hv⟩ := mem_keysOf.mp hka
      exact ⟨v, hv, mapGetOpt_eq_none_iff.mpr hkb⟩
  have hAdd : k ∈ (CompareMap A B).Add ↔ k ∈ keysOf B ∧ k ∉ keysOf A := by
    rw [show (CompareMap A B).Add = addedKeys A B from rfl, mem_addedKeys]
    constructor
    · rintro ⟨v, hv, hn⟩
      exact ⟨mem_keysOf.mpr ⟨v, hv⟩, mapGetOpt_eq_none_iff.mp hn⟩
    · rintro ⟨hkb, hka⟩
      obtain ⟨v, hv⟩ := mem_keysOf.mp hkb
      exact ⟨v, hv, mapGetOpt_eq_none_iff.mpr hka⟩
  have hUpd : k ∈ (CompareMap A B).Upd ↔
      ∃ v w, mapGetOpt A k = some v ∧ mapGetOpt B k = some w ∧ v ≠ w := by
    rw [show (CompareMap A B).Upd = (classifyLasts B A).2.1 from rfl, mem_classify_upd]
    constructor
    · rintro ⟨v, w, hv, hw, hne⟩
      exact ⟨v, w, mem_mapGetOpt_of_nodup hA hv, hw, hne⟩
    · rintro ⟨v, w, hv, hw, hne⟩
      exact ⟨v, w, mapGetOpt_eq_some_mem hv, hw, hne⟩
  have hSame : k ∈ (CompareMap A B).Same ↔
      ∃ v, mapGetOpt A k = some v ∧ mapGetOpt B k = some v := by
    rw [show (CompareMap A B).Same = (classifyLasts B A).2.2 from rfl, mem_classify_same]
    constructor
    · rintro ⟨v, hv, hw⟩
      exact ⟨v, mem_mapGetOpt_of_nodup hA hv, hw⟩
    · rintro ⟨v, hv, hw⟩
      exact ⟨v, mapGetOpt_eq_some_mem hv, hw⟩
  refine ⟨hDel, hAdd, hUpd, hSame, ?_, ?_, ?_, ?_, ?_, ?_, ?_, ?_⟩
  · constructor
    · intro h
      by_cases hka : k ∈ keysOf A
      · cases hob : mapGetOpt B k with
        | none =>
          exact Or.inr (Or.inr (Or.inl (hDel.mpr ⟨hka, mapGetOpt_eq_none_iff.mp hob⟩)))
        | some w =>
          obtain ⟨v, hv⟩ := mem_keysOf.mp hka
          have hav : mapGetOpt A k = some v := mem_mapGetOpt_of_nodup hA hv
          by_cases hvw : v = w
          · exact Or.inr (Or.inr (Or.inr (hSame.mpr ⟨v, hav, hvw ▸ hob⟩)))
          · exact Or.inr (Or.inl (hUpd.mpr ⟨v, w, hav, hob, hvw⟩))
      · rcases h with h | hkb
        · exact absurd h hka
        · exact Or.inl (hAdd.mpr ⟨hkb, hka⟩)
    · rintro (h | h | h | h)
      · exact Or.inr (hAdd.mp h).1
      · obtain ⟨v, w, hv, _, _⟩ := hUpd.mp h
        exact Or.inl (mapGetOpt_isSome_iff.mp (by simp [hv]))
      · exact Or.inl (hDel.mp h).1
      · obtain ⟨v, hv, _⟩ := hSame.mp h
        exact Or.inl (mapGetOpt_isSome_iff.mp (by simp [hv]))
  · rintro ⟨h1, h2⟩
    obtain ⟨v, w, hv, _, _⟩ := hUpd.mp h2
    exact (hAdd.mp h1).2 (mapGetOpt_isSome_iff.mp (by simp [hv]))
  · rintro ⟨h1, h2⟩
    exact (hAdd.mp h1).2 (hDel.mp h2).1
  · rintro ⟨h1, h2⟩
    obtain ⟨v, hv, _⟩ := hSame.mp h2
    exact (hAdd.mp h1).2 (mapGetOpt_isSome_iff.mp (by simp [hv]))
  · rintro ⟨h1, h2⟩
    obtain ⟨v, w, _, hw, _⟩ := hUpd.mp h1
    exact (hDel.mp h2).2 (mapGetOpt_isSome_iff.mp (by simp [hw]))
  · rintro ⟨h1, h2⟩
    obtain ⟨v, w, hv, hw, hne⟩ := hUpd.mp h1
    obtain ⟨v2, hv2, hw2⟩ := hSame.mp h2
    rw [hv] at hv2
    rw [hw] at hw2
    exact hne (by simp at hv2 hw2; rw [← hv2] at hw2; exact hw2.symm)
  · rintro ⟨h1, h2⟩
    obtain ⟨v, _, hw⟩ := hSame.mp h2
    exact (hDel.mp h1).2 (mapGetOpt_isSome_iff.mp (by simp [hw]))
  · have hall : ∀ kv ∈ A, mapGetOpt A kv.1 = some kv.2 :=
      fun kv hm => mem_mapGetOpt_of_nodup hA hm
    have hsome : ∀ kv ∈ A, (mapGetOpt A kv.1).isSome :=
      fun kv hm => by simp [hall kv hm]
    simp [CompareMap, classifyLasts_self hall, addedKeys_none hsome]

/-- Witness for C1 at a concrete pair of snapshots. -/
theorem claim_C1_witness :
    "a" ∈ (CompareMap [("a", "1")] [("b", "2")]).Del ↔
      "a" ∈ keysOf [("a", "1")] ∧ "a" ∉ keysOf [("b", "2")] :=
  (claim_C1 [("a", "1")] [("b", "2")] (by decide) (by decide) "a").1

/-! ## Cycle lemmas -/

theorem mapSubEq_refl {m : Snapshot} (hm : (keysOf m).Nodup) : mapSubEq m m = true := by
  simp only [mapSubEq, List.all_eq_true, decide_eq_true_eq]
  exact fun kv hmem => mem_mapGetOpt_of_nodup hm hmem

theorem mapEqual_refl {m : Snapshot} (hm : (keysOf m).Nodup) : mapEqual m m = true := by
  simp [mapEqual, mapSubEq_refl hm]

theorem runUpdates_append (env : ServerEnv) (node : String) (lastCfg : Snapshot)
    (xs ys : List (String × String × Snapshot)) :
    runUpdates env node lastCfg (xs ++ ys) =
      if (runUpdates env node lastCfg xs).out = .ok then
        ⟨(runUpdates env node lastCfg xs).applied ++ (runUpdates env node lastCfg ys).applied,
          (runUpdates env node lastCfg xs).ops ++ (runUpdates env node lastCfg ys).ops,
          (runUpdates env node lastCfg ys).out⟩
      else runUpdates env node lastCfg xs := by
  induction xs with
  | nil => simp [runUpdates]
  | cons x rest ih =>
    obtain ⟨a, k, cfg⟩ := x
    cases hx : (updateBGPConfig env node lastCfg a k cfg).out with
    | ok =>
      by_cases hr : (runUpdates env node lastCfg rest).out = .ok
      · simp [runUpdates, hx, ih, hr, List.append_assoc]
      · simp [runUpdates, hx, ih, hr]
    | err e => simp [runUpdates, hx]
    | exit => simp [runUpdates, hx]

theorem runUpdates_applied_pref (env : ServerEnv) (node : String) (lastCfg : Snapshot)
    (l : List (String × String × Snapshot)) :
    ∃ t, (runUpdates env node lastCfg l).applied ++ t = l.map (fun x => (x.1, x.2.1)) := by
  induction l with
  | nil => exact ⟨[], rfl⟩
  | cons x rest ih =>
    obtain ⟨a, k, cfg⟩ := x
    cases hx : (updateBGPConfig env node lastCfg a k cfg).out with
    | ok =>
      obtain ⟨t, ht⟩ := ih
      exact ⟨t, by simp [runUpdates, hx, ht]⟩
    | err e => exact ⟨rest.map (fun x => (x.1, x.2.1)), by simp [runUpdates, hx]⟩
    | exit => exact ⟨rest.map (fun x => (x.1, x.2.1)), by simp [runUpdates, hx]⟩

theorem runUpdates_ok_applied (env : ServerEnv) (node : String) (lastCfg : Snapshot)
    (l : List (String × String × Snapshot)) (h : (runUpdates env node lastCfg l).out = .ok) :
    (runUpdates env node lastCfg l).applied = l.map (fun x => (x.1, x.2.1)) := by
  induction l with
  | nil => simp [runUpdates]
  | cons x rest ih =>
    obtain ⟨a, k, cfg⟩ := x
    cases hx : (updateBGPConfig env node lastCfg a k cfg).out with
    | ok =>
      have hrest : (runUpdates env node lastCfg rest).out = .ok := by
        simp [runUpdates, hx] at h
        exact h
      simp [runUpdates, hx, ih hrest]
    | err e => simp [runUpdates, hx] at h
    | exit => simp [runUpdates, hx] at h

theorem runPoolUpdates_append (parse : String → Except String ipPool)
    (handler : Option (ipPool → Option String)) (m : PoolMap)
    (xs ys : List (String × String × Bool)) :
    runPoolUpdates parse handler m (xs ++ ys) =
      if (runPoolUpdates parse handler m xs).err = none then
        ⟨(runPoolUpdates parse handler (runPoolUpdates parse handler m xs).m ys).m,
          (runPoolUpdates parse handler m xs).applied ++
            (runPoolUpdates parse handler (runPoolUpdates parse handler m xs).m ys).applied,
          (runPoolUpdates parse handler m xs).fired ++
            (runPoolUpdates parse handler (runPoolUpdates parse handler m xs).m ys).fired,
          (runPoolUpdates parse handler (runPoolUpdates parse handler m xs).m ys).err⟩
      else runPoolUpdates parse handler m xs := by
  induction xs generalizing m with
  | nil => simp [runPoolUpdates]
  | cons x rest ih =>
    obtain ⟨k, s, d⟩ := x
    cases hx : (update parse handler m s d).err with
    | none =>
      by_cases hr : (runPoolUpdates parse handler (update parse handler m s d).m rest).err = none
      · simp [runPoolUpdates, hx, ih, hr, List.append_assoc]
      · simp [runPoolUpdates, hx, ih, hr]
    | some e => simp [runPoolUpdates, hx]

theorem runPoolUpdates_applied_pref (parse : String → Except String ipPool)
    (handler : Option (ipPool → Option String)) (m : PoolMap)
    (l : List (String × String × Bool)) :
    ∃ t, (runPoolUpdates parse handler m l).applied ++ t = l.map (fun x => (x.1, x.2.2)) := by
  induction l generalizing m with
  | nil => exact ⟨[], rfl⟩
  | cons x rest ih =>
    obtain ⟨k, s, d⟩ := x
    cases hx : (update parse handler m s d).err with
    | none =>
      obtain ⟨t, ht⟩ := ih ((update parse handler m s d).m)
      exact ⟨t, by simp [runPoolUpdates, hx, ht]⟩
    | some e => exact ⟨rest.map (fun x => (x.1, x.2.2)), by simp [runPoolUpdates, hx]⟩

theorem runPoolUpdates_ok_applied (parse : String → Except String ipPool)
    (handler : Option (ipPool → Option String)) (m : PoolMap)
    (l : List (String × String × Bool))
    (h : (runPoolUpdates parse handler m l).err = none) :
    (runPoolUpdates parse handler m l).applied = l.map (fun x => (x.1, x.2.2)) := by
  induction l generalizing m with
  | nil => simp [runPoolUpdates]
  | cons x rest ih =>
    obtain ⟨k, s, d⟩ := x
    cases hx : (update parse handler m s d).err with
    | none =>
      have hrest : (runPoolUpdates parse handler (update parse handler m s d).m rest).err = none := by
        simp [runPoolUpdates, hx] at h
        exact h
      simp [runPoolUpdates, hx, ih _ hrest]
    | some e => simp [runPoolUpdates, hx] at h

/-- C2: a cycle's baseline is replaced (by a snapshot map-equal to the
fresh one) exactly when the fetch and every apply step succeed; a fetch
error or an error partway through applying leaves the baseline exactly as
it was, for both the peering stream (`checkBGPConfig`) and the pool stream
(`sync`). -/
theorem claim_C2 (env : ServerEnv) (node : String) (last cur : Snapshot)
    (hcur : (keysOf cur).Nodup) (e : String)
    (parse : String → Except String ipPool) (handler : Option (ipPool → Option String))
    (m : PoolMap) :
    checkBGPConfig env node (.error e) last = ⟨last, [], [], .ok⟩ ∧
    ((checkBGPConfig env node (.ok cur) last).out = .ok →
      mapEqual (checkBGPConfig env node (.ok cur) last).baseline cur = true) ∧
    ((checkBGPConfig env node (.ok cur) last).out ≠ .ok →
      (checkBGPConfig env node (.ok cur) last).baseline = last) ∧
    (sync parse handler (.error e) last m).baseline = last ∧
    (sync parse handler (.error e) last m).err = some e ∧
    ((sync parse handler (.ok cur) last m).err = none →
      mapEqual (sync parse handler (.ok cur) last m).baseline cur = true) ∧
    ((sync parse handler (.ok cur) last m).err ≠ none →
      (sync parse handler (.ok cur) last m).baseline = last) := by
  refine ⟨rfl, ?_, ?_, rfl, rfl, ?_, ?_⟩
  · intro hok
    by_cases heq : mapEqual last cur
    · simpa [checkBGPConfig, heq] using heq
    · cases hr : (runUpdates env node last (cycleItems (CompareMap last cur) cur last)).out with
      | ok => simp [checkBGPConfig, heq, hr, mapEqual_refl hcur]
      | err e2 => simp [checkBGPConfig, heq, hr] at hok
      | exit => simp [checkBGPConfig, heq, hr] at hok
  · intro hko
    by_cases heq : mapEqual last cur
    · simp [checkBGPConfig, heq]
    · cases hr : (runUpdates env node last (cycleItems (CompareMap last cur) cur last)).out with
      | ok => exact absurd (by simp [checkBGPConfig, heq, hr]) hko
      | err e2 => simp [checkBGPConfig, heq, hr]
      | exit => simp [checkBGPConfig, heq, hr]
  · intro hok
    by_cases heq : mapEqual last cur
    · simpa [sync, heq] using heq
    · cases hr : (runPoolUpdates parse handler m (syncItems (CompareMap last cur) cur last)).err with
      | none => simp [sync, heq, hr, mapEqual_refl hcur]
      | some e2 => simp [sync, heq, hr] at hok
  · intro hko
    by_cases heq : mapEqual last cur
    · simp [sync, heq]
    · cases hr : (runPoolUpdates parse handler m (syncItems (CompareMap last cur) cur last)).err with
      | none => exact absurd (by simp [sync, heq, hr]) hko
      | some e2 => simp [sync, heq, hr]

/-- Witness for C2 at concrete inputs. -/
theorem claim_C2_witness :
    checkBGPConfig trivialEnv "n1" (.error "boom") [("x", "1")] = ⟨[("x", "1")], [], [], .ok⟩ :=
  (claim_C2 trivialEnv "n1" [("x", "1")] [] (by decide) "boom" parsePool none []).1

/-- The Add-then-Upd `(action, key)` pairs of a peering cycle, in loop
order. -/
def bgpAddUpdActs (last cur : Snapshot) : List (String × String) :=
  (CompareMap last cur).Add.map (fun k => (Act_add, k)) ++
    (CompareMap last cur).Upd.map (fun k => (Act_upd, k))

/-- The Del `(action, key)` pairs of a peering cycle. -/
def bgpDelActs (last cur : Snapshot) : List (String × String) :=
  (CompareMap last cur).Del.map (fun k => (Act_del, k))

/-- The Add-then-Upd `(key, del)` pairs of a pool cycle, in loop order. -/
def poolAddUpdActs (last cur : Snapshot) : List (String × Bool) :=
  ((CompareMap last cur).Add ++ (CompareMap last cur).Upd).map (fun k => (k, false))

/-- The Del `(key, del)` pairs of a pool cycle. -/
def poolDelActs (last cur : Snapshot) : List (String × Bool) :=
  (CompareMap last cur).Del.map (fun k => (k, true))

/-- C6: in both streams the delta is applied Added first, then Updated,
then Removed — the per-key actions a cycle attempts are either a prefix of
the Add-then-Upd actions (abort before any Removed action), or all
Add-then-Upd actions followed by a prefix of the Removed actions; so no
Removed action is ever issued before every Added and Updated action has
been. -/
theorem claim_C6 (env : ServerEnv) (node : String) (last cur : Snapshot)
    (parse : String → Except String ipPool) (handler : Option (ipPool → Option String))
    (m : PoolMap) :
    ((∃ t, (checkBGPConfig env node (.ok cur) last).applied ++ t = bgpAddUpdActs last cur) ∨
      (∃ p, (checkBGPConfig env node (.ok cur) last).applied = bgpAddUpdActs last cur ++ p ∧
        ∃ t, p ++ t = bgpDelActs last cur)) ∧
    ((∃ t, (sync parse handler (.ok cur) last m).applied ++ t = poolAddUpdActs last cur) ∨
      (∃ p, (sync parse handler (.ok cur) last m).applied = poolAddUpdActs last cur ++ p ∧
        ∃ t, p ++ t = poolDelActs last cur)) := by
  constructor
  · by_cases heq : mapEqual last cur
    · exact Or.inl ⟨bgpAddUpdActs last cur, by simp [checkBGPConfig, heq]⟩
    · have happ : (checkBGPConfig env node (.ok cur) last).applied =
          (runUpdates env node last (cycleItems (CompareMap last cur) cur last)).applied := by
        cases hr : (runUpdates env node last (cycleItems (CompareMap last cur) cur last)).out with
        | ok => simp [checkBGPConfig, heq, hr]
        | err e2 => simp [checkBGPConfig, heq, hr]
        | exit => simp [checkBGPConfig, heq, hr]
      have hsplit : cycleItems (CompareMap last cur) cur last =
          ((CompareMap last cur).Add.map (fun k => (Act_add, k, cur)) ++
            (CompareMap last cur).Upd.map (fun k => (Act_upd, k, cur))) ++
            (CompareMap last cur).Del.map (fun k => (Act_del, k, last)) := by
        simp [cycleItems]
      rw [happ, hsplit, runUpdates_append]
      set xs := (CompareMap last cur).Add.map (fun k => (Act_add, k, cur)) ++
        (CompareMap last cur).Upd.map (fun k => (Act_upd, k, cur)) with hxs
      set ys := (CompareMap last cur).Del.map (fun k => (Act_del, k, last)) with hys
      have hxsmap : xs.map (fun x => (x.1, x.2.1)) = bgpAddUpdActs last cur := by
        simp [hxs, bgpAddUpdActs, List.map_map, Function.comp_def]
      have hysmap : ys.map (fun x => (x.1, x.2.1)) = bgpDelActs last cur := by
        simp [hys, bgpDelActs, List.map_map, Function.comp_def]
      by_cases hfst : (runUpdates env node last xs).out = .ok
      · rw [if_pos hfst]
        refine Or.inr ⟨(runUpdates env node last ys).applied, ?_, ?_⟩
        · simp [runUpdates_ok_applied env node last xs hfst, hxsmap]
        · obtain ⟨t, ht⟩ := runUpdates_applied_pref env node last ys
          exact ⟨t, by rw [ht, hysmap]⟩
      · rw [if_neg hfst]
        obtain ⟨t, ht⟩ := runUpdates_applied_pref env node last xs
        exact Or.inl ⟨t, by rw [ht, hxsmap]⟩
  · by_cases heq : mapEqual last cur
    · exact Or.inl ⟨poolAddUpdActs last cur, by simp [sync, heq]⟩
    · have happ : (sync parse handler (.ok cur) last m).applied =
          (runPoolUpdates parse handler m (syncItems (CompareMap last cur) cur last)).applied := by
        cases hr : (runPoolUpdates parse handler m (syncItems (CompareMap last cur) cur last)).err with
        | none => simp [sync, heq, hr]
        | some e2 => simp [sync, heq, hr]
      have hsplit : syncItems (CompareMap last cur) cur last =
          ((CompareMap last cur).Add ++ (CompareMap last cur).Upd).map
              (fun k => (k, mapGet cur k, false)) ++
            (CompareMap last cur).Del.map (fun k => (k, mapGet last k, true)) := by
        simp [syncItems]
      rw [happ, hsplit, runPoolUpdates_append]
      set xs := ((CompareMap last cur).Add ++ (CompareMap last cur).Upd).map
        (fun k => (k, mapGet cur k, false)) with hxs
      set ys := (CompareMap last cur).Del.map (fun k => (k, mapGet last k, true)) with hys
      have hxsmap : xs.map (fun x => (x.1, x.2.2)) = poolAddUpdActs last cur := by
        simp [hxs, poolAddUpdActs, List.map_map, Function.comp_def]
      have hysmap : ∀ m2 : PoolMap, (runPoolUpdates parse handler m2 ys).applied ++
          ((Classical.choose (runPoolUpdates_applied_pref parse handler m2 ys))) =
            poolDelActs last cur := by
        intro m2
        have := Classical.choose_spec (runPoolUpdates_applied_pref parse handler m2 ys)
        rw [this, hys, poolDelActs, List.map_map]
        rfl
      by_cases hfst : (runPoolUpdates parse handler m xs).err = none
      · rw [if_pos hfst]
        refine Or.inr ⟨(runPoolUpdates parse handler (runPoolUpdates parse handler m xs).m ys).applied, ?_, ?_⟩
        · simp [runPoolUpdates_ok_applied parse handler m xs hfst, hxsmap]
        · exact ⟨_, hysmap (runPoolUpdates parse handler m xs).m⟩
      · rw [if_neg hfst]
        obtain ⟨t, ht⟩ := runPoolUpdates_applied_pref parse handler m xs
        exact Or.inl ⟨t, by rw [ht, hxsmap]⟩

/-! ## C3: error handling granularity -/

/-- C3 (amended): an unrecognized key is skipped (nil return, no server
call) and the cycle continues with the remaining keys; but a key whose
handling returns a data error aborts the whole cycle at that key — the
remaining delta keys are not processed — and, at the cycle level, an
aborted `sync` keeps its baseline so the delta is retried. -/
theorem claim_C3 (env : ServerEnv) (node : String) (lastCfg cfg last cur : Snapshot)
    (a k e : String) (rest : List (String × String × Snapshot))
    (parse : String → Except String ipPool) (handler : Option (ipPool → Option String))
    (m : PoolMap) (kp s : String) (d : Bool) (restP : List (String × String × Bool)) :
    ((updateBGPConfig env node lastCfg a k cfg).out = .err e →
      runUpdates env node lastCfg ((a, k, cfg) :: rest) =
        ⟨[(a, k)], (updateBGPConfig env node lastCfg a k cfg).ops, .err e⟩) ∧
    (updateBGPConfig env "n1" lastCfg a (AllNodes ++ "/m2/extraneous") cfg = ⟨[], .ok⟩ ∧
      runUpdates env "n1" lastCfg ((a, AllNodes ++ "/m2/extraneous", cfg) :: rest) =
        ⟨(a, AllNodes ++ "/m2/extraneous") :: (runUpdates env "n1" lastCfg rest).applied,
          (runUpdates env "n1" lastCfg rest).ops, (runUpdates env "n1" lastCfg rest).out⟩) ∧
    ((update parse handler m s d).err = some e →
      runPoolUpdates parse handler m ((kp, s, d) :: restP) =
        ⟨(update parse handler m s d).m, [(kp, d)], (update parse handler m s d).fired,
          some e⟩) ∧
    ((sync parse handler (.ok cur) last m).err ≠ none →
      (sync parse handler (.ok cur) last m).baseline = last) := by
  have hskip : updateBGPConfig env "n1" lastCfg a (AllNodes ++ "/m2/extraneous") cfg =
      ⟨[], .ok⟩ := by
    simp +decide [updateBGPConfig, strHasPref, listStartsWith, goSplit, goSplitAux,
      AllNodes, GlobalBGP, GlobalASN, GlobalNodeMesh]
  refine ⟨?_, ⟨hskip, ?_⟩, ?_, ?_⟩
  · intro h
    simp [runUpdates, h]
  · simp [runUpdates, hskip]
  · intro h
    simp [runPoolUpdates, h]
  · intro hko
    by_cases heq : mapEqual last cur
    · simp [sync, heq]
    · cases hr : (runPoolUpdates parse handler m (syncItems (CompareMap last cur) cur last)).err with
      | none => exact absurd (by simp [sync, heq, hr]) hko
      | some e2 => simp [sync, heq, hr]

/-- Counterexample to C3 as stated: in a pool cycle whose delta adds the
keys k1 and k2 (in that order), a data error (empty CIDR) on k1 does not
leave the rest of the cycle intact — k2 is never processed and the cycle
ends in an error instead of completing. -/
theorem claim_C3_cex :
    (sync parsePool (some (fun _ => none))
        (.ok [("k1", ",x"), ("k2", "10.1.0.0/16,a")]) [] []).err = some "empty cidr: ,x" ∧
    (sync parsePool (some (fun _ => none))
        (.ok [("k1", ",x"), ("k2", "10.1.0.0/16,a")]) [] []).applied = [("k1", false)] := by
  decide

/-- Witness for the amended C3 at a concrete aborted pool cycle. -/
theorem claim_C3_witness :
    runPoolUpdates parsePool none [] [("kk", ",x", false), ("k2", "c,a", false)] =
      ⟨(update parsePool none [] ",x" false).m, [("kk", false)],
        (update parsePool none [] ",x" false).fired, some "empty cidr: ,x"⟩ :=
  (claim_C3 trivialEnv "n1" [] [] [] [] "add" "x" "empty cidr: ,x" [] parsePool none []
    "kk" ",x" false [("k2", "c,a", false)]).2.2.1 (by decide)

/-! ## C4: the fatal-restart condition -/

theorem outcomeOf_ne_exit (o : Option String) : outcomeOf o ≠ .exit := by
  cases o <;> simp [outcomeOf]

theorem handleNonMeshNeighbor_ne_exit (env : ServerEnv) (a t p : String) :
    (handleNonMeshNeighbor env a t p).out ≠ .exit := by
  unfold handleNonMeshNeighbor
  split
  · simp
  · split
    · exact outcomeOf_ne_exit _
    · split
      · exact outcomeOf_ne_exit _
      · simp

theorem ipAddrAddUpd_ne_exit (env : ServerEnv) (lastCfg : Snapshot) (a k v h : String) :
    (ipAddrAddUpd env lastCfg a k v h).out ≠ .exit := by
  unfold ipAddrAddUpd
  repeat' split
  all_goals simp [outcomeOf_ne_exit]

theorem asNumLoop_ne_exit (env : ServerEnv) (bgpcfg : Snapshot) (host value : String)
    (asn : Nat) (vs : List String) :
    (asNumLoop env bgpcfg host value asn vs).out ≠ .exit := by
  induction vs with
  | nil => simp [asNumLoop]
  | cons v rest ih =>
    rw [asNumLoop]
    repeat' split
    all_goals try simp_all
    all_goals
      (cases env.addNeighbor ⟨value, asn % 2 ^ 32, "Mesh_" ++ underscore value⟩ <;> simp_all)

theorem asNumHandler_ne_exit (env : ServerEnv) (bgpcfg : Snapshot) (a v h : String) :
    (asNumHandler env bgpcfg a v h).out ≠ .exit := by
  unfold asNumHandler
  split
  · simp
  · exact asNumLoop_ne_exit _ _ _ _ _ _

theorem meshLoop_ne_exit (env : ServerEnv) (mesh : Bool) (ns : List Neighbor) :
    (meshLoop env mesh ns).out ≠ .exit := by
  induction ns with
  | nil => simp [meshLoop]
  | cons n rest ih =>
    rw [meshLoop]
    repeat' split
    all_goals simp_all

theorem meshHandler_ne_exit (env : ServerEnv) : (meshHandler env).out ≠ .exit := by
  unfold meshHandler
  split
  · simp
  · split
    · simp
    · exact meshLoop_ne_exit _ _ _

/-- The exact condition under which `updateBGPConfig` reaches an
`os.Exit(1)` call, read off the branch structure: the key is outside both
peer subspaces and either carries the local node's scope string as a
prefix, or is outside the per-node subspace and carries the global
AS-number key as a prefix. -/
def exitCond (node key : String) : Bool :=
  !strHasPref key (GlobalBGP ++ "/peer_") &&
    !strHasPref key (AllNodes ++ "/" ++ node ++ "/peer_") &&
    (strHasPref key (AllNodes ++ "/" ++ node) ||
      (!strHasPref key AllNodes && strHasPref key GlobalASN))

/-- C4 (amended): the fatal restart fires exactly for the keys satisfying
`exitCond` — every key with the string `AllNodes/node` as a prefix (not
just the exact identity-root key: this includes the local node's own
`ip_addr_v4`/`ip_addr_v6`/`as_num` keys and keys of other nodes whose
names extend the local node's name) other than the local `peer_` keys,
and every key with the global AS-number key as a prefix; no other key
ever terminates the process. -/
theorem claim_C4 (env : ServerEnv) (node : String) (lastCfg : Snapshot)
    (action key : String) (bgpconfig : Snapshot) :
    (updateBGPConfig env node lastCfg action key bgpconfig).out = .exit ↔
      exitCond node key = true := by
  unfold updateBGPConfig
  by_cases h1 : strHasPref key (GlobalBGP ++ "/peer_")
  · simp [exitCond, h1, handleNonMeshNeighbor_ne_exit]
  · by_cases h2 : strHasPref key (AllNodes ++ "/" ++ node ++ "/peer_")
    · simp [exitCond, h1, h2, handleNonMeshNeighbor_ne_exit]
    · by_cases h3 : strHasPref key (AllNodes ++ "/" ++ node)
      · simp [exitCond, h1, h2, h3]
      · by_cases h4 : strHasPref key AllNodes
        · have hrhs : exitCond node key = false := by simp [exitCond, h3, h4]
          rw [hrhs]
          simp only [Bool.false_eq_true, iff_false]
          rw [if_neg h1, if_neg h2, if_neg h3, if_pos h4]
          repeat' split
          all_goals simp [outcomeOf_ne_exit, ipAddrAddUpd_ne_exit, asNumHandler_ne_exit]
        · by_cases h5 : strHasPref key GlobalASN
          · simp [exitCond, h1, h2, h3, h4, h5]
          · by_cases h6 : strHasPref key GlobalNodeMesh
            · simp [exitCond, h1, h2, h3, h4, h5, h6, meshHandler_ne_exit]
            · simp [exitCond, h1, h2, h3, h4, h5, h6]

/-- Counterexample to C4 as stated: the local node's own `ip_addr_v4` key
and a key of the distinct node "n10" (whose name merely extends "n1")
both hit the fatal-restart branch, which the claim says must not
terminate the process. -/
theorem claim_C4_cex :
    (updateBGPConfig trivialEnv "n1" [] Act_upd (AllNodes ++ "/n1/ip_addr_v4")
        [(AllNodes ++ "/n1/ip_addr_v4", "10.0.0.5")]).out = .exit ∧
    (updateBGPConfig trivialEnv "n1" [] Act_upd (AllNodes ++ "/n10/ip_addr_v4")
        [(AllNodes ++ "/n10/ip_addr_v4", "10.0.0.5")]).out = .exit := by
  decide

/-- Witness for the amended C4 at the local identity-root key. -/
theorem claim_C4_witness : exitCond "n1" (AllNodes ++ "/n1") = true :=
  (claim_C4 trivialEnv "n1" [] Act_upd (AllNodes ++ "/n1") []).mp (by decide)

/-! ## C5: update of a per-node address key -/

/-- C5: for an Updated per-node address key of another node, the old
address (read from the baseline) is deleted before the new address is
added, the new value being empty short-circuits after the deletion with
no add and no error, an empty old value skips the deletion, and no add is
ever issued for the old address. -/
theorem claim_C5 (env : ServerEnv) (lastCfg cfg : Snapshot) (v1 v2 : String) (asn : Nat)
    (hv1 : mapGetOpt lastCfg (AllNodes ++ "/m2/ip_addr_v4") = some v1)
    (hv2 : mapGetOpt cfg (AllNodes ++ "/m2/ip_addr_v4") = some v2)
    (hne : v1 ≠ v2)
    (hasn : env.getPeerASN "m2" = .ok asn)
    (hdel : ∀ n, env.deleteNeighbor n = none)
    (hadd : ∀ n, env.addNeighbor n = none) :
    updateBGPConfig env "n1" lastCfg Act_upd (AllNodes ++ "/m2/ip_addr_v4") cfg =
      ⟨(if v1 = "" then [] else [.del ⟨v1, 0, ""⟩]) ++
        (if v2 = "" then [] else [.add ⟨v2, asn % 2 ^ 32, "Mesh_" ++ underscore v2⟩]),
        .ok⟩ ∧
    ∀ n, BGPOp.add n ∈ (updateBGPConfig env "n1" lastCfg Act_upd
        (AllNodes ++ "/m2/ip_addr_v4") cfg).ops → n.address = v2 ∧ n.address ≠ v1 := by
  have hbr : updateBGPConfig env "n1" lastCfg Act_upd (AllNodes ++ "/m2/ip_addr_v4") cfg =
      ipAddrAddUpd env lastCfg Act_upd (AllNodes ++ "/m2/ip_addr_v4")
        (mapGet cfg (AllNodes ++ "/m2/ip_addr_v4")) "m2" := by
    simp +decide [updateBGPConfig, strHasPref, listStartsWith, goSplit, goSplitAux,
      AllNodes, GlobalBGP, GlobalASN, GlobalNodeMesh, Act_upd, Act_del, Act_add]
  have hmain : updateBGPConfig env "n1" lastCfg Act_upd (AllNodes ++ "/m2/ip_addr_v4") cfg =
      ⟨(if v1 = "" then [] else [.del ⟨v1, 0, ""⟩]) ++
        (if v2 = "" then [] else [.add ⟨v2, asn % 2 ^ 32, "Mesh_" ++ underscore v2⟩]),
        .ok⟩ := by
    rw [hbr]
    by_cases h1 : v1 = "" <;> by_cases h2 : v2 = "" <;>
      simp [ipAddrAddUpd, deleteNeighborOp, outcomeOf, mapGet, hv1, hv2, h1, h2, hasn,
        hdel, hadd]
  refine ⟨hmain, ?_⟩
  intro n hn
  rw [hmain] at hn
  simp only [List.mem_append] at hn
  rcases hn with hn | hn
  · by_cases h1 : v1 = "" <;> simp [h1] at hn
  · by_cases h2 : v2 = "" <;> simp [h2] at hn
    subst hn
    exact ⟨rfl, Ne.symm hne⟩

/-- Witness for C5 at a concrete address change. -/
theorem claim_C5_witness :
    updateBGPConfig trivialEnv "n1" [(AllNodes ++ "/m2/ip_addr_v4", "10.0.0.1")] Act_upd
        (AllNodes ++ "/m2/ip_addr_v4") [(AllNodes ++ "/m2/ip_addr_v4", "10.0.0.2")] =
      ⟨(if "10.0.0.1" = "" then [] else [.del ⟨"10.0.0.1", 0, ""⟩]) ++
        (if "10.0.0.2" = "" then []
          else [.add ⟨"10.0.0.2", 64512 % 2 ^ 32, "Mesh_" ++ underscore "10.0.0.2"⟩]),
        .ok⟩ :=
  (claim_C5 trivialEnv [(AllNodes ++ "/m2/ip_addr_v4", "10.0.0.1")]
    [(AllNodes ++ "/m2/ip_addr_v4", "10.0.0.2")] "10.0.0.1" "10.0.0.2" 64512
    (by decide) (by decide) (by decide) rfl (fun _ => rfl) (fun _ => rfl)).1

/-! ## C10: update of a per-node as_num key -/

/-- C10: when another node's `as_num` key is Added or Updated, for each IP
version whose address is present and non-empty the neighbor keyed by the
node's address is deleted and a neighbor whose address and label are
derived from the `as_num` value (not from the node's IP) is added; and if
either `ip_addr` key is absent from the snapshot the action fails with
"ip address data not found". -/
theorem claim_C10 (env : ServerEnv) (lastCfg cfg : Snapshot) (v ip4 ip6 : String)
    (asnU asnN : Nat)
    (hv : mapGetOpt cfg (AllNodes ++ "/node2/as_num") = some v)
    (hip4 : mapGetOpt cfg (AllNodes ++ "/node2/ip_addr_v4") = some ip4)
    (hip6 : mapGetOpt cfg (AllNodes ++ "/node2/ip_addr_v6") = some ip6)
    (hasnU : env.asNumberFromString v = .ok asnU)
    (hasnN : env.getNodeASN = .ok asnN)
    (hdel : ∀ n, env.deleteNeighbor n = none)
    (hadd : ∀ n, env.addNeighbor n = none) :
    (updateBGPConfig env "n1" lastCfg Act_upd (AllNodes ++ "/node2/as_num") cfg =
      ⟨(if ip4 = "" then []
          else [.del ⟨ip4, 0, ""⟩, .add ⟨v, asnU % 2 ^ 32, "Mesh_" ++ underscore v⟩]) ++
        (if ip6 = "" then []
          else [.del ⟨ip6, 0, ""⟩, .add ⟨v, asnU % 2 ^ 32, "Mesh_" ++ underscore v⟩]),
        .ok⟩) ∧
    (updateBGPConfig env "n1" lastCfg Act_add (AllNodes ++ "/node2/as_num") cfg =
      ⟨(if ip4 = "" then []
          else [.del ⟨ip4, 0, ""⟩, .add ⟨v, asnN % 2 ^ 32, "Mesh_" ++ underscore v⟩]) ++
        (if ip6 = "" then []
          else [.del ⟨ip6, 0, ""⟩, .add ⟨v, asnN % 2 ^ 32, "Mesh_" ++ underscore v⟩]),
        .ok⟩) ∧
    (∀ nb, BGPOp.add nb ∈ (updateBGPConfig env "n1" lastCfg Act_upd
        (AllNodes ++ "/node2/as_num") cfg).ops →
      nb.address = v ∧ nb.description = "Mesh_" ++ underscore v) ∧
    (∀ cfg2 : Snapshot, mapGetOpt cfg2 (AllNodes ++ "/node2/ip_addr_v4") = none →
      (updateBGPConfig env "n1" lastCfg Act_add (AllNodes ++ "/node2/as_num") cfg2).out =
        .err "ip address data not found") ∧
    (∀ (cfg2 : Snapshot) (ip : String),
      mapGetOpt cfg2 (AllNodes ++ "/node2/ip_addr_v4") = some ip →
      mapGetOpt cfg2 (AllNodes ++ "/node2/ip_addr_v6") = none →
      (updateBGPConfig env "n1" lastCfg Act_add (AllNodes ++ "/node2/as_num") cfg2).out =
        .err "ip address data not found") := by
  have hbr : ∀ (a : String), a = Act_upd ∨ a = Act_add → ∀ cfg2 : Snapshot,
      updateBGPConfig env "n1" lastCfg a (AllNodes ++ "/node2/as_num") cfg2 =
        asNumHandler env cfg2 a (mapGet cfg2 (AllNodes ++ "/node2/as_num")) "node2" := by
    rintro a (rfl | rfl) cfg2 <;>
      simp +decide [updateBGPConfig, strHasPref, listStartsWith, goSplit, goSplitAux,
        AllNodes, GlobalBGP, GlobalASN, GlobalNodeMesh, Act_upd, Act_del, Act_add]
  have e4 : AllNodes ++ "/" ++ "node2" ++ "/ip_addr_" ++ "v4" =
      AllNodes ++ "/node2/ip_addr_v4" := by decide
  have e6 : AllNodes ++ "/" ++ "node2" ++ "/ip_addr_" ++ "v6" =
      AllNodes ++ "/node2/ip_addr_v6" := by decide
  have hmainU : updateBGPConfig env "n1" lastCfg Act_upd (AllNodes ++ "/node2/as_num") cfg =
      ⟨(if ip4 = "" then []
          else [.del ⟨ip4, 0, ""⟩, .add ⟨v, asnU % 2 ^ 32, "Mesh_" ++ underscore v⟩]) ++
        (if ip6 = "" then []
          else [.del ⟨ip6, 0, ""⟩, .add ⟨v, asnU % 2 ^ 32, "Mesh_" ++ underscore v⟩]),
        .ok⟩ := by
    rw [hbr Act_upd (Or.inl rfl) cfg]
    by_cases h4 : ip4 = "" <;> by_cases h6 : ip6 = "" <;>
      simp +decide [asNumHandler, asNumLoop, deleteNeighborOp, Act_upd, e4, e6, mapGet,
        hv, hip4, hip6, h4, h6, hasnU, hdel, hadd]
  have hmainA : updateBGPConfig env "n1" lastCfg Act_add (AllNodes ++ "/node2/as_num") cfg =
      ⟨(if ip4 = "" then []
          else [.del ⟨ip4, 0, ""⟩, .add ⟨v, asnN % 2 ^ 32, "Mesh_" ++ underscore v⟩]) ++
        (if ip6 = "" then []
          else [.del ⟨ip6, 0, ""⟩, .add ⟨v, asnN % 2 ^ 32, "Mesh_" ++ underscore v⟩]),
        .ok⟩ := by
    rw [hbr Act_add (Or.inr rfl) cfg]
    by_cases h4 : ip4 = "" <;> by_cases h6 : ip6 = "" <;>
      simp +decide [asNumHandler, asNumLoop, deleteNeighborOp, Act_add, Act_upd, e4, e6,
        mapGet, hv, hip4, hip6, h4, h6, hasnN, hdel, hadd]
  refine ⟨hmainU, hmainA, ?_, ?_, ?_⟩
  · intro nb hn
    rw [hmainU] at hn
    simp only [List.mem_append] at hn
    rcases hn with hn | hn
    · by_cases h4 : ip4 = "" <;> simp [h4] at hn
      subst hn
      exact ⟨rfl, rfl⟩
    · by_cases h6 : ip6 = "" <;> simp [h6] at hn
      subst hn
      exact ⟨rfl, rfl⟩
  · intro cfg2 hnone
    rw [hbr Act_add (Or.inr rfl) cfg2]
    simp +decide [asNumHandler, asNumLoop, Act_add, Act_upd, e4, hnone, hasnN]
  · intro cfg2 ip hip hnone
    rw [hbr Act_add (Or.inr rfl) cfg2]
    by_cases hipe : ip = "" <;>
      simp +decide [asNumHandler, asNumLoop, deleteNeighborOp, Act_add, Act_upd, e4, e6,
        hip, hnone, hipe, hasnN, hdel, hadd]

/-- Witness for C10 at a concrete node with a v4 address and an empty v6
address. -/
theorem claim_C10_witness :
    updateBGPConfig trivialEnv "n1" [] Act_upd (AllNodes ++ "/node2/as_num")
        [(AllNodes ++ "/node2/as_num", "65001"),
          (AllNodes ++ "/node2/ip_addr_v4", "10.0.0.7"),
          (AllNodes ++ "/node2/ip_addr_v6", "")] =
      ⟨(if "10.0.0.7" = "" then []
          else [.del ⟨"10.0.0.7", 0, ""⟩,
            .add ⟨"65001", 65001 % 2 ^ 32, "Mesh_" ++ underscore "65001"⟩]) ++
        (if "" = "" then []
          else [.del ⟨"", 0, ""⟩,
            .add ⟨"65001", 65001 % 2 ^ 32, "Mesh_" ++ underscore "65001"⟩]),
        .ok⟩ :=
  (claim_C10 trivialEnv []
    [(AllNodes ++ "/node2/as_num", "65001"),
      (AllNodes ++ "/node2/ip_addr_v4", "10.0.0.7"),
      (AllNodes ++ "/node2/ip_addr_v6", "")] "65001" "10.0.0.7" "" 65001 64512
    (by decide) (by decide) (by decide) rfl rfl (fun _ => rfl) (fun _ => rfl)).1

/-! ## C7 and C8: pool-cache apply semantics -/

/-- C7: with a handler registered, the pool cache's `update` fires the
handler exactly on a genuine add or a content-changing update — never on a
removal, and never when the parsed entry structurally equals the stored
entry for the same CIDR (in which case the table is also left
unchanged). -/
theorem claim_C7 (parse : String → Except String ipPool) (h : ipPool → Option String)
    (m : PoolMap) (s : String) (del : Bool) (p : ipPool)
    (hs : s ≠ "") (hp : parse s = .ok p) (hc : p.cidr ≠ "") :
    (del = true → (update parse (some h) m s del).fired = [] ∧
      (update parse (some h) m s del).m = poolDelete m p.cidr ∧
      (update parse (some h) m s del).err = none) ∧
    (del = false → p.equalOpt (poolLookup m p.cidr) = true →
      update parse (some h) m s del = ⟨m, [], none⟩) ∧
    (del = false → p.equalOpt (poolLookup m p.cidr) = false →
      (update parse (some h) m s del).fired = [p] ∧
      (update parse (some h) m s del).m = poolInsert m p.cidr p) := by
  refine ⟨?_, ?_, ?_⟩
  · intro hd
    simp [update, hs, hp, hc, hd]
  · intro hd hq
    simp [update, hs, hp, hc, hd, hq]
  · intro hd hq
    simp [update, hs, hp, hc, hd, hq]

/-- Witness for C7: a second apply of identical content is a silent
no-op. -/
theorem claim_C7_witness :
    update parsePool (some (fun _ => none)) [("10.0.0.0/24", ⟨"10.0.0.0/24", "a"⟩)]
        "10.0.0.0/24,a" false = ⟨[("10.0.0.0/24", ⟨"10.0.0.0/24", "a"⟩)], [], none⟩ :=
  (claim_C7 parsePool (fun _ => none) [("10.0.0.0/24", ⟨"10.0.0.0/24", "a"⟩)]
    "10.0.0.0/24,a" false ⟨"10.0.0.0/24", "a"⟩ (by decide) rfl (by decide)).2.1
    rfl (by decide)

/-- C8 (amended): `apply("", del)` is a silent no-op — it returns nil
without mutating the table or firing the handler — while an entry whose
parsed CIDR is empty is the case rejected with an error (again with no
mutation and no handler call). -/
theorem claim_C8 (parse : String → Except String ipPool)
    (handler : Option (ipPool → Option String)) (m : PoolMap) (del : Bool)
    (s : String) (p : ipPool) :
    update parse handler m "" del = ⟨m, [], none⟩ ∧
    (s ≠ "" → parse s = .ok p → p.cidr = "" →
      update parse handler m s del = ⟨m, [], some ("empty cidr: " ++ s)⟩) := by
  constructor
  · simp [update]
  · intro hs hp hc
    simp [update, hs, hp, hc]

/-- Counterexample to C8 as stated: `apply("", false)` does not return an
error — the call returns nil (the table is indeed unchanged and the
handler silent, but the claim's "returns an error" is false). -/
theorem claim_C8_cex :
    (update parsePool (some (fun _ => none)) [("10.0.0.0/24", ⟨"10.0.0.0/24", "a"⟩)]
        "" false).err = none ∧
    (update parsePool (some (fun _ => none)) [("10.0.0.0/24", ⟨"10.0.0.0/24", "a"⟩)]
        "" false).m = [("10.0.0.0/24", ⟨"10.0.0.0/24", "a"⟩)] := by
  decide

/-- Witness for the amended C8 at a concrete empty-CIDR entry. -/
theorem claim_C8_witness :
    update parsePool none [] ",x" false = ⟨[], [], some ("empty cidr: " ++ ",x")⟩ :=
  (claim_C8 parsePool none [] false ",x" ⟨"", "x"⟩).2 (by decide) rfl rfl

/-! ## C9: default seeding in `getBGPConfig` -/

theorem mapGetOpt_mapInsert_self (m : Snapshot) (k v : String) :
    mapGetOpt (mapInsert m k v) k = some v := by
  induction m with
  | nil => simp [mapInsert, mapGetOpt]
  | cons kv rest ih =>
    by_cases hk : kv.1 = k
    · simp [mapInsert, hk, mapGetOpt]
    · simp [mapInsert, hk, mapGetOpt, ih]

theorem mapGetOpt_mapInsert_ne (m : Snapshot) (k kw v : String) (h : kw ≠ k) :
    mapGetOpt (mapInsert m kw v) k = mapGetOpt m k := by
  induction m with
  | nil => simp [mapInsert, mapGetOpt, h]
  | cons kv rest ih =>
    by_cases hk : kv.1 = kw
    · simp [mapInsert, hk, mapGetOpt, h]
    · simp [mapInsert, hk, mapGetOpt, ih]

theorem applyKvps_isSome (l : List (String × String)) (m : Snapshot) (k : String)
    (h : (mapGetOpt m k).isSome) : (mapGetOpt (applyKvps m l) k).isSome := by
  induction l generalizing m with
  | nil => exact h
  | cons kv rest ih =>
    show (mapGetOpt (applyKvps (mapInsert m kv.1 kv.2) rest) k).isSome
    apply ih
    by_cases hk : kv.1 = k
    · rw [hk, mapGetOpt_mapInsert_self]
      rfl
    · rw [mapGetOpt_mapInsert_ne _ _ _ _ hk]
      exact h

theorem applyKvps_untouched (l : List (String × String)) (m : Snapshot) (k : String)
    (h : ∀ kv ∈ l, kv.1 ≠ k) : mapGetOpt (applyKvps m l) k = mapGetOpt m k := by
  induction l generalizing m with
  | nil => rfl
  | cons kv rest ih =>
    show mapGetOpt (applyKvps (mapInsert m kv.1 kv.2) rest) k = mapGetOpt m k
    rw [ih _ (fun kv2 hm => h _ (List.mem_cons_of_mem _ hm)),
      mapGetOpt_mapInsert_ne _ _ _ _ (h _ (List.mem_cons_self _ _))]

/-- C9: every snapshot built by `getBGPConfig` contains the global
logging, AS-number and node-mesh keys — seeded with the defaults "info",
"64512" and the mesh-enabled value before the datastore writes (which may
overwrite them) are merged — so `getNeighborConfigs` never takes its
"mesh data not found" branch on such a snapshot. -/
theorem claim_C9 (g p n : List (String × String)) (env : ServerEnv) :
    (mapGetOpt (getBGPConfig g p n) GlobalLogging).isSome = true ∧
    (mapGetOpt (getBGPConfig g p n) GlobalASN).isSome = true ∧
    (mapGetOpt (getBGPConfig g p n) GlobalNodeMesh).isSome = true ∧
    ((∀ kv ∈ g ++ p ++ n, kv.1 ≠ GlobalLogging) →
      mapGetOpt (getBGPConfig g p n) GlobalLogging = some "info") ∧
    ((∀ kv ∈ g ++ p ++ n, kv.1 ≠ GlobalASN) →
      mapGetOpt (getBGPConfig g p n) GlobalASN = some "64512") ∧
    ((∀ kv ∈ g ++ p ++ n, kv.1 ≠ GlobalNodeMesh) →
      mapGetOpt (getBGPConfig g p n) GlobalNodeMesh = some meshEnabledStr) ∧
    ∃ mesh, mapGetOpt (getBGPConfig g p n) GlobalNodeMesh = some mesh ∧
      getNeighborConfigs env (getBGPConfig g p n) = getNeighborConfigsRest env mesh := by
  have hsplit3 : ∀ (k : String), (∀ kv ∈ g ++ p ++ n, kv.1 ≠ k) →
      (∀ kv ∈ g, kv.1 ≠ k) ∧ (∀ kv ∈ p, kv.1 ≠ k) ∧ (∀ kv ∈ n, kv.1 ≠ k) := by
    intro k h
    exact ⟨fun kv hm => h kv (by simp [hm]), fun kv hm => h kv (by simp [hm]),
      fun kv hm => h kv (by simp [hm])⟩
  have hsome : ∀ (k : String),
      (mapGetOpt (mapInsert (mapInsert (mapInsert [] GlobalLogging "info") GlobalASN "64512")
        GlobalNodeMesh meshEnabledStr) k).isSome = true →
      (mapGetOpt (getBGPConfig g p n) k).isSome = true := by
    intro k hk
    unfold getBGPConfig
    exact applyKvps_isSome _ _ _ (applyKvps_isSome _ _ _ (applyKvps_isSome _ _ _ hk))
  have huntouched : ∀ (k : String), (∀ kv ∈ g ++ p ++ n, kv.1 ≠ k) →
      mapGetOpt (getBGPConfig g p n) k =
        mapGetOpt (mapInsert (mapInsert (mapInsert [] GlobalLogging "info") GlobalASN "64512")
          GlobalNodeMesh meshEnabledStr) k := by
    intro k h
    obtain ⟨hg, hp, hn⟩ := hsplit3 k h
    unfold getBGPConfig
    rw [applyKvps_untouched _ _ _ hn, applyKvps_untouched _ _ _ hp,
      applyKvps_untouched _ _ _ hg]
  have hmeshSome : (mapGetOpt (getBGPConfig g p n) GlobalNodeMesh).isSome = true :=
    hsome _ (by decide)
  refine ⟨hsome _ (by decide), hsome _ (by decide), hmeshSome, ?_, ?_, ?_, ?_⟩
  · intro h
    rw [huntouched _ h]
    decide
  · intro h
    rw [huntouched _ h]
    decide
  · intro h
    rw [huntouched _ h]
    decide
  · obtain ⟨mesh, hmesh⟩ := Option.isSome_iff_exists.mp hmeshSome
    exact ⟨mesh, hmesh, by simp [getNeighborConfigs, hmesh]⟩

/-- Witness for C9 at concrete datastore write lists. -/
theorem claim_C9_witness :
    mapGetOpt (getBGPConfig [("x", "1")] [] []) GlobalLogging = some "info" :=
  (claim_C9 [("x", "1")] [] [] trivialEnv).2.2.2.1 (by decide)
